import Mathlib

/-!
Shallow embedding of `src/split_merge_detect.py` and
`src/func_condition_wrapper.py` from the repository
`ivandkoz/differential-computing-TADs`.

Conventions of the embedding:
* pandas DataFrames become Lean lists of records; a DataFrame whose index
  labels matter (the candidate table consumed by `choose_region`) becomes a
  list of `(label, record)` pairs;
* Python floats (coordinates, sizes, p-values) are modelled as rationals `ℚ`,
  so the arithmetic of the source (`start - 1.5*binsize`, `(end-start)*1.1`)
  is exact;
* functions that can raise in Python return `Except String _`; a Python
  function that can fall off its end and implicitly return `None` returns
  `Option _`;
* the cooler contact matrices are external I/O: the p-value produced by
  `create_diff_matrix` for one candidate group is abstracted as an oracle
  `(String × ℚ × ℚ) → List (ℚ × ℚ) → ℚ` (main-TAD coordinates and the
  ordered small-TAD coordinate list determine the score deterministically).
-/

attribute [local semireducible] Rat.add Rat.sub Rat.mul Rat.inv

/-- A TAD record as loaded from the CSV tables: columns `chrom`, `start`,
`end`. -/
structure Tad where
  chrom : String
  start : ℚ
  end_ : ℚ
deriving DecidableEq, Repr

/-- A TAD row carrying a `size` column: the shape produced by
`modify_tads_map_by_condition` (search windows) and by `add_size_column`
(compared small TADs). -/
structure SizedTad where
  chrom : String
  start : ℚ
  end_ : ℚ
  size : ℚ
deriving DecidableEq, Repr

/-- One row of the merged candidate table produced by the
`pd.merge(..., suffixes=('_tad1', '_tad2'))` call in `find_split`. -/
structure IntersectRow where
  chrom : String
  start_tad1 : ℚ
  end_tad1 : ℚ
  size_tad1 : ℚ
  start_tad2 : ℚ
  end_tad2 : ℚ
  size_tad2 : ℚ
deriving DecidableEq, Repr

/-- `BINSIZE_COEF = 1.5` from the top of `split_merge_detect.py`. -/
def BINSIZE_COEF : ℚ := 3 / 2

/-- Row-level content of `modify_tads_map_by_condition`: expand a TAD into a
search window (`start - 1.5*binsize`, `end + 1.5*binsize`,
`size = (end-start)*length_flexibility`). -/
def modify_tad_row (t : Tad) (binsize length_flexibility : ℚ) : SizedTad :=
  { chrom := t.chrom
    start := t.start - BINSIZE_COEF * binsize
    end_ := t.end_ + BINSIZE_COEF * binsize
    size := (t.end_ - t.start) * length_flexibility }

/-- `modify_tads_map_by_condition` applied to a whole per-chromosome table. -/
def modify_tads_map_by_condition (tad1_chr_coords : List Tad)
    (binsize length_flexibility : ℚ) : List SizedTad :=
  tad1_chr_coords.map (fun t => modify_tad_row t binsize length_flexibility)

/-- `add_size_column`: assign `size = end - start` to every row. -/
def add_size_column (tad2_chr_coords : List Tad) : List SizedTad :=
  tad2_chr_coords.map
    (fun t => { chrom := t.chrom, start := t.start, end_ := t.end_,
                size := t.end_ - t.start })

/-- Row-level content of `demodify_tads_map`: the source assigns
`start_tad1 += 1.5*binsize`, then `end_tad1 -= 1.5*binsize`, then recomputes
`size_tad1 = end_tad1 - start_tad1` from the already-adjusted columns. -/
def demodify_row (r : IntersectRow) (binsize : ℚ) : IntersectRow :=
  { r with
    start_tad1 := r.start_tad1 + BINSIZE_COEF * binsize
    end_tad1 := r.end_tad1 - BINSIZE_COEF * binsize
    size_tad1 := (r.end_tad1 - BINSIZE_COEF * binsize)
      - (r.start_tad1 + BINSIZE_COEF * binsize) }

/-- Modelled from the spec: the de-normalization step as claim C5 words it
("subtracts `1.5*binsize` from each row's `start_tad1` coordinate and adds
`1.5*binsize` to its `end_tad1` coordinate, then recomputes `size_tad1`"),
for comparison with the source's `demodify_row`. -/
def demodify_row_spec_C5 (r : IntersectRow) (binsize : ℚ) : IntersectRow :=
  { r with
    start_tad1 := r.start_tad1 - BINSIZE_COEF * binsize
    end_tad1 := r.end_tad1 + BINSIZE_COEF * binsize
    size_tad1 := (r.end_tad1 + BINSIZE_COEF * binsize)
      - (r.start_tad1 - BINSIZE_COEF * binsize) }

/-- First-occurrence deduplication, i.e. the order produced by
`pandas.Series.unique` (order of appearance). -/
def uniqueList : List String → List String
  | [] => []
  | a :: l => a :: (uniqueList l).filter (fun b => decide (b ≠ a))

/-- `get_chrom_list`: warn (first component) iff the two tables have different
NUMBERS of distinct chromosomes; the returned list is the distinct
chromosomes of the first table, in order of appearance, restricted to those
also present in the second table. -/
def get_chrom_list (tad1 tad2 : List Tad) : Bool × List String :=
  let tad1_chrom_list := uniqueList (tad1.map (·.chrom))
  let tad2_chrom_list := uniqueList (tad2.map (·.chrom))
  (decide (tad1_chrom_list.length ≠ tad2_chrom_list.length),
   tad1_chrom_list.filter (fun c => decide (c ∈ tad2_chrom_list)))

/-- `get_chroms_coords` for one of the two tables: `df.query("chrom == @chrom")`. -/
def get_chroms_coords (tads : List Tad) (chrom : String) : List Tad :=
  tads.filter (fun t => decide (t.chrom = chrom))

/-- The `pd.merge(tad1_search_regs, tad2_comp_regs, on='chrom', how='outer')`
step of `find_split`, with the `RangeIndex` labels the merged frame carries.
Rows are the chromosome-matched pairs of the cross product in left-table
order; the label of a pair is its position in the full cross product.  (For
the per-chromosome inputs `find_split` receives in the pipeline all rows of
both tables share one `chrom`, so the cross product is exactly the pandas
outer merge and these labels are exactly its `RangeIndex`; unmatched rows,
which pandas would pad with NaN, are dropped here because NaN comparisons
make the very next `.loc` filter discard them.) -/
def merge_tads (w c : List SizedTad) : List (ℕ × IntersectRow) :=
  ((w.map (fun a => c.map (fun b => (a, b)))).flatten).enum.filterMap
    (fun p =>
      if p.2.1.chrom = p.2.2.chrom then
        some (p.1,
          { chrom := p.2.1.chrom
            start_tad1 := p.2.1.start, end_tad1 := p.2.1.end_,
            size_tad1 := p.2.1.size
            start_tad2 := p.2.2.start, end_tad2 := p.2.2.end_,
            size_tad2 := p.2.2.size })
      else none)

/-- The groupby key of `find_split`'s aggregation:
`['chrom', 'start_tad1', 'end_tad1', 'size_tad1']`. -/
def groupKey (r : IntersectRow) : String × ℚ × ℚ × ℚ :=
  (r.chrom, r.start_tad1, r.end_tad1, r.size_tad1)

/-- Stage one of `find_split`: the merged table restricted by the pairwise
`.loc` filter (`start_tad1 <= start_tad2 and end_tad1 >= end_tad2 and
size_tad1 >= size_tad2`). -/
def find_split_filtered (tad1_chr_coords tad2_chr_coords : List Tad)
    (binsize length_flexibility : ℚ) : List (ℕ × IntersectRow) :=
  (merge_tads
      (modify_tads_map_by_condition tad1_chr_coords binsize length_flexibility)
      (add_size_column tad2_chr_coords)).filter
    (fun p =>
      decide (p.2.start_tad1 ≤ p.2.start_tad2 ∧ p.2.end_tad2 ≤ p.2.end_tad1 ∧
        p.2.size_tad2 ≤ p.2.size_tad1))

/-- Stage two of `find_split`:
`duplicated(subset='start_tad1', keep=False)` keeps exactly the rows whose
`start_tad1` value occurs in at least two rows of the filtered table. -/
def find_split_dup (tad1_chr_coords tad2_chr_coords : List Tad)
    (binsize length_flexibility : ℚ) : List (ℕ × IntersectRow) :=
  (find_split_filtered tad1_chr_coords tad2_chr_coords binsize
      length_flexibility).filter
    (fun p =>
      2 ≤ (find_split_filtered tad1_chr_coords tad2_chr_coords binsize
          length_flexibility).countP
        (fun q => decide (q.2.start_tad1 = p.2.start_tad1)))

/-- The `agg({'size_tad2': 'sum'})` aggregate of one
`(chrom, start_tad1, end_tad1, size_tad1)` group. -/
def groupSizeSum (rows : List (ℕ × IntersectRow))
    (k : String × ℚ × ℚ × ℚ) : ℚ :=
  (rows.filter (fun q => decide (groupKey q.2 = k))).foldl
    (fun s q => s + q.2.size_tad2) 0

/-- Stage three of `find_split`: the groups of the duplicated-filtered table
that survive the `query('size_tad1 >= size_tad2')` check on the aggregated
(summed) `size_tad2`. -/
def find_split_goodKeys (tad1_chr_coords tad2_chr_coords : List Tad)
    (binsize length_flexibility : ℚ) : List (String × ℚ × ℚ × ℚ) :=
  (((find_split_dup tad1_chr_coords tad2_chr_coords binsize
        length_flexibility).map (fun p => groupKey p.2)).dedup).filter
    (fun k =>
      decide (groupSizeSum
          (find_split_dup tad1_chr_coords tad2_chr_coords binsize
            length_flexibility) k ≤ k.2.2.2))

/-- `find_split`: build search windows and sized small TADs, merge on
chromosome, keep containment-and-size matches, keep rows whose `start_tad1`
is duplicated (≥ 2 occurrences), aggregate per
`(chrom, start_tad1, end_tad1, size_tad1)` group, keep groups whose summed
`size_tad2` does not exceed `size_tad1`, and finally keep the rows whose
`start_tad1` occurs among the surviving groups
(`isin` on the aggregated table's `start_tad1` column). -/
def find_split (tad1_chr_coords tad2_chr_coords : List Tad)
    (binsize : ℚ := 100000) (length_flexibility : ℚ := 11 / 10) :
    List (ℕ × IntersectRow) :=
  (find_split_dup tad1_chr_coords tad2_chr_coords binsize
      length_flexibility).filter
    (fun p =>
      (find_split_goodKeys tad1_chr_coords tad2_chr_coords binsize
          length_flexibility).any
        (fun k => decide (k.2.1 = p.2.start_tad1)))

/-- `find_coords`: linear scan for the first `(first, second)` bin interval
with `first <= position <= second`.  The Python loop has no `return`
statement after it, so when no interval contains `position` the function
terminates normally and yields `None`; this is the `none` value here. -/
def find_coords (position : ℚ) : List (ℚ × ℚ) → Option ℕ
  | [] => none
  | c :: rest =>
    if c.1 ≤ position ∧ position ≤ c.2 then some 0
    else (find_coords position rest).map (· + 1)

/-- Model of the external `scipy.stats.mannwhitneyu(x, y, method='asymptotic')`
provider (spec §6 "Significance test provider").  Per the scipy contract it
raises `ValueError` when either sample is empty; on non-empty samples it
returns a p-value whose floating-point magnitude (normal-CDF based) is
abstracted by the parameter `pfun`. -/
def mannwhitneyu (pfun : List ℚ → List ℚ → ℚ) (x y : List ℚ) :
    Except String ℚ :=
  if x = [] ∨ y = [] then
    .error "ValueError: x and y must be of nonzero size."
  else .ok (pfun x y)

/-- `calculate_pvalue`: run the Mann-Whitney U test on the square and hill
intensity samples and return the p-value. -/
def calculate_pvalue (pfun : List ℚ → List ℚ → ℚ)
    (square_intensity hill_intensity : List ℚ) : Except String ℚ :=
  mannwhitneyu pfun square_intensity hill_intensity

/-- The `row[['chrom', 'start_tad1', 'end_tad1']].to_list()` projection used
by `choose_region` to detect group boundaries. -/
def rowMain (r : IntersectRow) : String × ℚ × ℚ :=
  (r.chrom, r.start_tad1, r.end_tad1)

/-- The `row[['start_tad2', 'end_tad2']].to_list()` projection accumulated
into `small_tads_coords`. -/
def rowSmall (r : IntersectRow) : ℚ × ℚ :=
  (r.start_tad2, r.end_tad2)

/-- Oracle abstracting `create_diff_matrix(main_tad_coords,
small_tads_coords, clr_1, clr_2)`: the external contact matrices are fixed,
so the returned p-value is a deterministic function of the main-TAD
coordinates and the ordered small-TAD list. -/
abbrev PvalueOracle := (String × ℚ × ℚ) → List (ℚ × ℚ) → ℚ

/-- Loop state of `choose_region`: `main_tad_coords` (unbound before the
first `index == 0` row, hence `Option`), `small_tads_coords`,
`big_tad_indicies`, and the `df_with_value.loc[first:last, 'pvalue'] = pvalue`
writes performed so far (recorded as `(first, last, pvalue)` and applied to
the table at the end, which is equivalent because the writes are by label). -/
structure CRState where
  main : Option (String × ℚ × ℚ)
  smalls : List (ℚ × ℚ)
  bigs : List ℕ
  assigns : List (ℕ × ℕ × ℚ)
deriving Repr

/-- Shared tail of one `choose_region` loop iteration: append the row's index
and small-TAD coordinates, then, when the row's label equals the table's last
label, compute the group p-value and record the
`loc[bigs[0]:bigs[-1]]` write. -/
def appendRow (oracle : PvalueOracle) (lastLabel i : ℕ)
    (m : String × ℚ × ℚ) (r : IntersectRow) (st : CRState) : CRState :=
  let st2 : CRState :=
    { st with
      main := some m
      bigs := st.bigs ++ [i]
      smalls := st.smalls ++ [rowSmall r] }
  if i = lastLabel then
    match st2.bigs.head?, st2.bigs.getLast? with
    | some f, some l =>
      { st2 with assigns := st2.assigns ++ [(f, l, oracle m st2.smalls)] }
    | _, _ => st2
  else st2

/-- The `for index, row in df.iterrows()` loop of `choose_region`.  A first
row whose label is not `0` leaves `main_tad_coords` unbound and the
comparison `main_tad_coords != row[...]` raises `NameError`; a group
boundary met while `big_tad_indicies` is empty would raise `IndexError` on
`big_tad_indicies[0]`. -/
def chooseRegionGo (oracle : PvalueOracle) (lastLabel : ℕ) :
    CRState → List (ℕ × IntersectRow) → Except String (List (ℕ × ℕ × ℚ))
  | st, [] => .ok st.assigns
  | st, (i, r) :: rest =>
    let st1 := if i = 0 then { st with main := some (rowMain r) } else st
    match st1.main with
    | none => .error "NameError: name main_tad_coords is not defined"
    | some m =>
      if m = rowMain r then
        chooseRegionGo oracle lastLabel (appendRow oracle lastLabel i m r st1)
          rest
      else
        match st1.bigs.head?, st1.bigs.getLast? with
        | some f, some l =>
          chooseRegionGo oracle lastLabel
            (appendRow oracle lastLabel i (rowMain r) r
              { main := some (rowMain r), smalls := [], bigs := [],
                assigns := st1.assigns ++ [(f, l, oracle m st1.smalls)] })
            rest
        | _, _ => .error "IndexError: list index out of range"

/-- Effect of the accumulated `loc[first:last, 'pvalue'] = pvalue` writes on
the row with label `i`: the last write whose label interval contains `i`
wins; a row covered by no write keeps the initial `np.nan`
(modelled as `none`). -/
def applyAssigns (assigns : List (ℕ × ℕ × ℚ)) (i : ℕ) : Option ℚ :=
  ((assigns.filter (fun a => decide (a.1 ≤ i ∧ i ≤ a.2.1))).getLast?).map
    (fun a => a.2.2)

/-- `choose_region`: initialize the `pvalue` column to NaN, scan the rows
accumulating each main-TAD group, score a group when its run ends (or at the
last label) and broadcast the p-value onto the group's label range. -/
def choose_region (df : List (ℕ × IntersectRow)) (oracle : PvalueOracle) :
    Except String (List (ℕ × IntersectRow × Option ℚ)) :=
  match df.getLast? with
  | none => .ok []
  | some last =>
    match chooseRegionGo oracle last.1 ⟨none, [], [], []⟩ df with
    | .error e => .error e
    | .ok assigns => .ok (df.map (fun p => (p.1, p.2, applyAssigns assigns p.1)))

/-- One row of the CSV written by `save_frame`: `size_tad1`/`size_tad2` are
dropped and the coordinate columns are renamed to the
`start_1/end_1/start_2/end_2` schema, with the `_1`/`_2` roles swapped for
`option == "merge"`. -/
structure SavedRow where
  chrom : String
  start_1 : ℚ
  end_1 : ℚ
  start_2 : ℚ
  end_2 : ℚ
  pvalue : Option ℚ
deriving DecidableEq, Repr

/-- `demodify_tads_map` applied to the annotated candidate table (the shape
`save_frame` passes it): every row's `_tad1` coordinates are adjusted in
place.  The source mutates the DataFrame it is given, so the caller's
`final_table` ends up demodified too; `main_option` below reflects that by
counting events on this function's result. -/
def demodify_tads_map (table : List (ℕ × IntersectRow × Option ℚ))
    (binsize : ℚ) : List (ℕ × IntersectRow × Option ℚ) :=
  table.map (fun p => (p.1, demodify_row p.2.1 binsize, p.2.2))

/-- `save_frame`: demodify (mutating the caller's table — first component of
the result), rename the coordinate columns according to `option`, drop the
size columns, and write the rows out (second component). -/
def save_frame (option : String) (saving_dataframe : List (ℕ × IntersectRow × Option ℚ))
    (binsize : ℚ) :
    List (ℕ × IntersectRow × Option ℚ) × List SavedRow :=
  let mutated := demodify_tads_map saving_dataframe binsize
  let saved := mutated.map (fun p =>
    if option = "merge" then
      { chrom := p.2.1.chrom
        start_1 := p.2.1.start_tad2, end_1 := p.2.1.end_tad2
        start_2 := p.2.1.start_tad1, end_2 := p.2.1.end_tad1
        pvalue := p.2.2 : SavedRow }
    else
      { chrom := p.2.1.chrom
        start_1 := p.2.1.start_tad1, end_1 := p.2.1.end_tad1
        start_2 := p.2.1.start_tad2, end_2 := p.2.1.end_tad2
        pvalue := p.2.2 : SavedRow })
  (mutated, saved)

/-- Reindexing effect of `pd.concat([...], ignore_index=True)`: the rows keep
their order and receive fresh labels `0..n-1`. -/
def reindex (l : List (ℕ × IntersectRow)) : List (ℕ × IntersectRow) :=
  l.enum.map (fun p => (p.1, p.2.2))

/-- The per-chromosome accumulation loop of `main_split_merge_detection`.
The accumulator starts as the COLUMN-LESS `pd.DataFrame()` (modelled as
`none`); a chromosome iteration replaces an empty accumulator (column-less,
or a zero-row table — both have `.empty == True`) with the `find_split`
result as-is (keeping the gapped labels the merge filter left behind, and
always carrying the merged columns even with zero rows), while a non-empty
accumulator is appended to with `ignore_index=True`, which relabels the
whole table `0..n-1`.  The result is `none` exactly when the chromosome
list is empty, i.e. the loop never ran and the column-less frame survives.
`find_split` is called with its default `binsize=100_000` and
`length_flexibility=1.1`, exactly as in the source (main's own `binsize`
argument is not forwarded). -/
def accumulate_split_table (tad1 tad2 : List Tad) (chroms : List String) :
    Option (List (ℕ × IntersectRow)) :=
  chroms.foldl
    (fun acc chrom =>
      let fs := find_split (get_chroms_coords tad1 chrom)
        (get_chroms_coords tad2 chrom)
      match acc with
      | none => some fs
      | some rows => if rows.isEmpty then some fs
          else some (reindex (rows ++ fs)))
    none

/-- `final_table[['start_tad1', 'end_tad1']].drop_duplicates().shape[0]`:
the number of distinct `(start_tad1, end_tad1)` pairs among the rows. -/
def countDistinctPairs (t : List (ℕ × IntersectRow × Option ℚ)) : ℕ :=
  ((t.map (fun p => (p.2.1.start_tad1, p.2.1.end_tad1))).dedup).length

/-- One `option ∈ {split, merge}` iteration of the body of
`main_split_merge_detection`: swap the TAD tables for "merge", intersect the
chromosome lists, accumulate the per-chromosome `find_split` tables, score
the groups (`choose_region`), save (`save_frame`, whose in-place
demodification also yields the table the episode count is taken from), and
count distinct `(start_tad1, end_tad1)` pairs.  Returns the episode count
together with the post-`save_frame` table and the saved rows.

When the chromosome intersection is empty the accumulator is still the
column-less `pd.DataFrame()` (the `none` branch): `choose_region` on it
succeeds with no rows (it merely adds the `pvalue` column), but
`save_frame`'s first step `demodify_tads_map` reads the missing
`'start_tad1'` column and raises `KeyError`; the branch models that
exception. -/
def main_option (tad1 tad2 : List Tad) (binsize : ℚ) (oracle : PvalueOracle)
    (option : String) :
    Except String (ℕ × List (ℕ × IntersectRow × Option ℚ) × List SavedRow) :=
  let t1 := if option = "merge" then tad2 else tad1
  let t2 := if option = "merge" then tad1 else tad2
  let tad_chrom_list := (get_chrom_list t1 t2).2
  (accumulate_split_table t1 t2 tad_chrom_list).elim
    (Except.error "KeyError: 'start_tad1'")
    (fun tad_split_table => do
      let final_table ← choose_region tad_split_table oracle
      let saved := save_frame option final_table binsize
      pure (countDistinctPairs saved.1, saved.1, saved.2))

/-- The undecorated body of `main_split_merge_detection`: run the split pass
and the merge pass and return the two episode counts as a pair. -/
def main_split_merge_detection_core (tad1 tad2 : List Tad) (binsize : ℚ)
    (oracle : PvalueOracle) : Except String (ℕ × ℕ) := do
  let s ← main_option tad1 tad2 binsize oracle "split"
  let m ← main_option tad1 tad2 binsize oracle "merge"
  pure (s.1, m.1)

/-- The `wrapper_print` decorator from `func_condition_wrapper.py`: on
success it writes `FUNC_NAMES[...][1]` followed by the result to stdout, on
exception it writes the traceback to stderr; in BOTH cases the wrapper
function itself returns `None`.  The result is the list of stdout lines
paired with the (always absent) return value. -/
def wrapper_print {α : Type} (toStr : α → String) (msg : String)
    (result : Except String α) : List String × Option α :=
  match result with
  | .ok r => ([msg ++ toStr r], none)
  | .error _ => ([], none)

/-- The public `main_split_merge_detection` entry point, i.e. the core body
as rebound by the `@wrapper_print` decorator: it prints
`"The number of splits|merges: "` followed by the episode pair and returns
`None`. -/
def main_split_merge_detection (tad1 tad2 : List Tad) (binsize : ℚ)
    (oracle : PvalueOracle) : List String × Option (ℕ × ℕ) :=
  wrapper_print toString "The number of splits|merges: "
    (main_split_merge_detection_core tad1 tad2 binsize oracle)

/-- Labels of one contiguous main-TAD run of the candidate table. -/
def runLabels (run : List (ℕ × IntersectRow)) : List ℕ :=
  run.map Prod.fst

/-- The ordered `small_tads_coords` list `choose_region` accumulates for one
run. -/
def runSmalls (run : List (ℕ × IntersectRow)) : List (ℚ × ℚ) :=
  run.map (fun p => rowSmall p.2)

/-- The `(chrom, start_tad1, end_tad1)` key of a run (junk on the empty
run, which well-formed decompositions exclude). -/
def runKeyD (run : List (ℕ × IntersectRow)) : String × ℚ × ℚ :=
  run.head?.elim ("", 0, 0) (fun p => rowMain p.2)

/-- The `loc[first:last, 'pvalue'] = pvalue` write `choose_region` performs
when it flushes one run. -/
def runAssign (oracle : PvalueOracle) (run : List (ℕ × IntersectRow)) :
    ℕ × ℕ × ℚ :=
  (((runLabels run).head?).getD 0, ((runLabels run).getLast?).getD 0,
    oracle (runKeyD run) (runSmalls run))

/-- The annotated rows of one run: every row carries the one p-value computed
for the run. -/
def annotateRun (oracle : PvalueOracle) (run : List (ℕ × IntersectRow)) :
    List (ℕ × IntersectRow × Option ℚ) :=
  run.map (fun p => (p.1, p.2, some (oracle (runKeyD run) (runSmalls run))))

/-- The p-value a key receives from a run decomposition: the score of the
first run carrying that key, if any. -/
def pvalueFor (oracle : PvalueOracle)
    (runs : List (List (ℕ × IntersectRow))) (k : String × ℚ × ℚ) : Option ℚ :=
  (runs.find? (fun run => decide (runKeyD run = k))).map
    (fun run => oracle (runKeyD run) (runSmalls run))

/-- Concrete two-group candidate table used to witness C4. -/
def exRuns : List (List (ℕ × IntersectRow)) :=
  [[(0, ⟨"c", 1, 2, 3, 4, 5, 6⟩), (1, ⟨"c", 1, 2, 3, 7, 8, 9⟩)],
   [(2, ⟨"c", 10, 20, 30, 4, 5, 6⟩)]]

/-- Concrete deterministic scoring oracle used to witness C4. -/
def exOracle : PvalueOracle := fun m _ => m.2.1

/-! ## Helper lemmas -/

/-- Membership in the first-occurrence deduplication. -/
lemma mem_uniqueList {c : String} : ∀ {l : List String}, c ∈ uniqueList l ↔ c ∈ l
  | [] => by simp [uniqueList]
  | a :: t => by
    simp only [uniqueList, List.mem_cons, List.mem_filter, decide_eq_true_iff,
      mem_uniqueList (l := t)]
    constructor
    · rintro (rfl | ⟨h, -⟩)
      · exact Or.inl rfl
      · exact Or.inr h
    · rintro (rfl | h)
      · exact Or.inl rfl
      · by_cases hca : c = a
        · exact Or.inl hca
        · exact Or.inr ⟨h, hca⟩

/-- The first-occurrence deduplication has no duplicates. -/
lemma nodup_uniqueList : ∀ (l : List String), (uniqueList l).Nodup
  | [] => List.nodup_nil
  | a :: t => by
    refine List.Nodup.cons ?_ ((nodup_uniqueList t).filter _)
    intro ha
    have hb := (List.mem_filter.mp ha).2
    simp at hb

/-- Filtering a list by a predicate that only looks at `f a` does not change
the number of elements of a fixed `f`-class, for a class the predicate
accepts. -/
lemma countP_filter_class {α β : Type} [DecidableEq β] (f : α → β)
    (g : β → Bool) (l : List α) (x : α) (hx : g (f x) = true) :
    (l.filter (fun a => g (f a))).countP (fun a => decide (f a = f x)) =
      l.countP (fun a => decide (f a = f x)) := by
  induction l with
  | nil => rfl
  | cons a t ih =>
    by_cases hfa : f a = f x
    · have hga : g (f a) = true := by rw [hfa]; exact hx
      simp [List.filter_cons, hga, List.countP_cons, hfa, ih, hx]
    · cases hga : g (f a) with
      | false => simp [List.filter_cons, hga, List.countP_cons, hfa, ih]
      | true => simp [List.filter_cons, hga, List.countP_cons, hfa, ih]

/-! ## Claim theorems -/

/-- C2: de-normalization is the exact inverse of normalization.  Feeding the
window produced by `modify_tads_map_by_condition` (as the `_tad1` columns of
a merged row, next to arbitrary `_tad2` columns) to `demodify_tads_map`
restores the original `start`/`end` exactly and recomputes `size` as
`end - start`. -/
theorem C2_denormalize_inverts_normalize (t : Tad)
    (binsize length_flexibility s2 e2 z2 : ℚ) :
    demodify_row
      { chrom := (modify_tad_row t binsize length_flexibility).chrom
        start_tad1 := (modify_tad_row t binsize length_flexibility).start
        end_tad1 := (modify_tad_row t binsize length_flexibility).end_
        size_tad1 := (modify_tad_row t binsize length_flexibility).size
        start_tad2 := s2, end_tad2 := e2, size_tad2 := z2 } binsize =
      { chrom := t.chrom, start_tad1 := t.start, end_tad1 := t.end_,
        size_tad1 := t.end_ - t.start,
        start_tad2 := s2, end_tad2 := e2, size_tad2 := z2 } := by
  have hs : t.start - BINSIZE_COEF * binsize + BINSIZE_COEF * binsize =
      t.start := by ring
  have he : t.end_ + BINSIZE_COEF * binsize - BINSIZE_COEF * binsize =
      t.end_ := by ring
  simp only [demodify_row, modify_tad_row, hs, he]

/-- C5 (amended): the de-normalization step ADDS `1.5*binsize` to
`start_tad1`, SUBTRACTS `1.5*binsize` from `end_tad1` (the converse of the
claim's wording), recomputes `size_tad1` as the difference of the adjusted
coordinates, leaves the `_tad2` columns alone, and is what `save_frame`
applies (in place) before writing. -/
theorem C5_demodify_adds_to_start (r : IntersectRow) (binsize : ℚ)
    (option : String) (table : List (ℕ × IntersectRow × Option ℚ)) :
    (demodify_row r binsize).start_tad1 = r.start_tad1 + BINSIZE_COEF * binsize ∧
    (demodify_row r binsize).end_tad1 = r.end_tad1 - BINSIZE_COEF * binsize ∧
    (demodify_row r binsize).size_tad1 =
      (demodify_row r binsize).end_tad1 - (demodify_row r binsize).start_tad1 ∧
    (demodify_row r binsize).start_tad2 = r.start_tad2 ∧
    (demodify_row r binsize).end_tad2 = r.end_tad2 ∧
    (demodify_row r binsize).size_tad2 = r.size_tad2 ∧
    (demodify_row r binsize).chrom = r.chrom ∧
    (save_frame option table binsize).1 = demodify_tads_map table binsize ∧
    demodify_tads_map table binsize =
      table.map (fun p => (p.1, demodify_row p.2.1 binsize, p.2.2)) := by
  refine ⟨?_, ?_, ?_, ?_, ?_, ?_, ?_, ?_, ?_⟩ <;> rfl

/-- C5 (counterexample): on the row with `start_tad1 = 0`, `end_tad1 = 10`
and `binsize = 2` the code moves `start_tad1` to `3` (adds `1.5*binsize`),
while the claim's direction would move it to `-3` (subtract `1.5*binsize`). -/
theorem C5_counterexample :
    demodify_row ⟨"chr1", 0, 10, 10, 1, 2, 1⟩ 2 ≠
      demodify_row_spec_C5 ⟨"chr1", 0, 10, 10, 1, 2, 1⟩ 2 ∧
    (demodify_row ⟨"chr1", 0, 10, 10, 1, 2, 1⟩ 2).start_tad1 = 3 ∧
    (demodify_row_spec_C5 ⟨"chr1", 0, 10, 10, 1, 2, 1⟩ 2).start_tad1 = -3 := by
  decide

/-- C8: when either intensity sample handed to the significance-scoring step
is empty, the (modelled) Mann-Whitney provider raises `ValueError`, so
`calculate_pvalue` surfaces an error and never produces a p-value. -/
theorem C8_empty_sample_errors (pfun : List ℚ → List ℚ → ℚ)
    (square_intensity hill_intensity : List ℚ)
    (h : square_intensity = [] ∨ hill_intensity = []) :
    calculate_pvalue pfun square_intensity hill_intensity =
      Except.error "ValueError: x and y must be of nonzero size." := by
  unfold calculate_pvalue mannwhitneyu
  rw [if_pos h]

theorem C8_empty_sample_errors_witness :
    (([] : List ℚ) = [] ∨ ([(1 : ℚ)] : List ℚ) = []) ∧
    calculate_pvalue (fun _ _ => 0) [] [1] =
      Except.error "ValueError: x and y must be of nonzero size." :=
  ⟨Or.inl rfl, C8_empty_sample_errors (fun _ _ => 0) [] [1] (Or.inl rfl)⟩

/-- C10: `choose_region` binds `main_tad_coords` only on the row whose index
label is `0`; on any non-empty table whose first label is not `0` the very
first iteration evaluates the unbound name and the call fails with
`NameError` instead of returning a table. -/
theorem C10_nonzero_first_label_errors (i : ℕ) (r : IntersectRow)
    (rest : List (ℕ × IntersectRow)) (oracle : PvalueOracle) (h : i ≠ 0) :
    choose_region ((i, r) :: rest) oracle =
      Except.error "NameError: name main_tad_coords is not defined" := by
  unfold choose_region
  cases hl : ((i, r) :: rest).getLast? with
  | none => exact absurd (List.getLast?_eq_none_iff.mp hl) (List.cons_ne_nil _ _)
  | some last =>
    simp [chooseRegionGo, h]

theorem C10_nonzero_first_label_errors_witness :
    ((1 : ℕ) ≠ 0) ∧
    find_split [⟨"c", 0, 100⟩] [⟨"c", -100, -50⟩, ⟨"c", 0, 40⟩, ⟨"c", 50, 90⟩]
        10 (11 / 10) =
      (1, ⟨"c", -15, 115, 110, 0, 40, 40⟩) ::
        [(2, ⟨"c", -15, 115, 110, 50, 90, 40⟩)] ∧
    choose_region
        ((1, ⟨"c", -15, 115, 110, 0, 40, 40⟩) ::
          [(2, ⟨"c", -15, 115, 110, 50, 90, 40⟩)]) (fun _ _ => 0) =
      Except.error "NameError: name main_tad_coords is not defined" :=
  ⟨by decide, by decide,
   C10_nonzero_first_label_errors 1 ⟨"c", -15, 115, 110, 0, 40, 40⟩
     [(2, ⟨"c", -15, 115, 110, 50, 90, 40⟩)] (fun _ _ => 0) (by decide)⟩

/-- Characterization of the not-found case of `find_coords`: the function
returns the plain value `none` (Python's implicit `return None`), without
raising, exactly when no interval contains the position. -/
lemma find_coords_eq_none_iff (position : ℚ) :
    ∀ coords : List (ℚ × ℚ), find_coords position coords = none ↔
      ∀ c ∈ coords, ¬(c.1 ≤ position ∧ position ≤ c.2)
  | [] => by simp [find_coords]
  | c :: rest => by
    by_cases hc : c.1 ≤ position ∧ position ≤ c.2
    · simp [find_coords, hc]
    · simp only [find_coords, if_neg hc, Option.map_eq_none', List.mem_cons]
      rw [find_coords_eq_none_iff position rest]
      constructor
      · rintro h d (rfl | hd)
        · exact hc
        · exact h d hd
      · intro h d hd
        exact h d (Or.inr hd)

/-- Characterization of the found case of `find_coords`: the returned index
points at the FIRST interval containing the position. -/
lemma find_coords_eq_some_iff (position : ℚ) :
    ∀ (coords : List (ℚ × ℚ)) (i : ℕ), find_coords position coords = some i ↔
      ∃ c, coords.get? i = some c ∧ (c.1 ≤ position ∧ position ≤ c.2) ∧
        ∀ j, j < i → ∀ d, coords.get? j = some d →
          ¬(d.1 ≤ position ∧ position ≤ d.2)
  | [], i => by simp [find_coords]
  | c :: rest, 0 => by
    by_cases hc : c.1 ≤ position ∧ position ≤ c.2
    · simp only [find_coords, if_pos hc]
      constructor
      · intro _
        exact ⟨c, rfl, hc, fun j hj => absurd hj (Nat.not_lt_zero j)⟩
      · intro _
        trivial
    · simp only [find_coords, if_neg hc]
      constructor
      · intro h
        rcases Option.map_eq_some'.mp h with ⟨m, -, hm⟩
        exact absurd hm (Nat.succ_ne_zero m)
      · rintro ⟨d, hd, hdP, -⟩
        rw [List.get?_cons_zero] at hd
        cases Option.some.inj hd
        exact absurd hdP hc
  | c :: rest, n + 1 => by
    by_cases hc : c.1 ≤ position ∧ position ≤ c.2
    · simp only [find_coords, if_pos hc]
      constructor
      · intro h
        exact absurd (Option.some.inj h) (Nat.zero_ne_add_one n)
      · rintro ⟨d, -, -, hall⟩
        exact absurd hc (hall 0 (Nat.succ_pos n) c rfl)
    · simp only [find_coords, if_neg hc]
      constructor
      · intro h
        rcases Option.map_eq_some'.mp h with ⟨m, hm, hmn⟩
        have hmn' : m = n := Nat.succ.inj hmn
        subst hmn'
        rcases (find_coords_eq_some_iff position rest m).mp hm with
          ⟨d, hd, hdP, hall⟩
        refine ⟨d, by simpa using hd, hdP, ?_⟩
        intro j hj e he hq
        cases j with
        | zero => exact hc (Option.some.inj (by simpa using he) ▸ hq)
        | succ j' =>
          exact hall j' (Nat.lt_of_succ_lt_succ hj) e (by simpa using he) hq
      · rintro ⟨d, hd, hdP, hall⟩
        have hrest : find_coords position rest = some n := by
          rw [find_coords_eq_some_iff position rest n]
          refine ⟨d, by simpa using hd, hdP, ?_⟩
          intro j hj e he
          exact hall (j + 1) (Nat.succ_lt_succ hj) e (by simpa using he)
        rw [hrest]
        rfl

/-- C7 (amended): `find_coords` returns `some i` exactly when interval `i`
is the first one containing the position; when no interval contains the
position it terminates normally with the absent value `None`
(no exception is raised). -/
theorem C7_find_coords_first_or_none (position : ℚ)
    (coords : List (ℚ × ℚ)) :
    (find_coords position coords = none ↔
      ∀ c ∈ coords, ¬(c.1 ≤ position ∧ position ≤ c.2)) ∧
    (∀ i : ℕ, find_coords position coords = some i ↔
      ∃ c, coords.get? i = some c ∧ (c.1 ≤ position ∧ position ≤ c.2) ∧
        ∀ j, j < i → ∀ d, coords.get? j = some d →
          ¬(d.1 ≤ position ∧ position ≤ d.2)) :=
  ⟨find_coords_eq_none_iff position coords,
   fun i => find_coords_eq_some_iff position coords i⟩

/-- C7 (counterexample): for a position outside every bin interval the
lookup does not fail with an error — it returns the ordinary value `None`
(which Python's downstream `iloc` slicing accepts silently). -/
theorem C7_counterexample :
    find_coords (5 : ℚ) [((10 : ℚ), (20 : ℚ))] = none ∧
    ¬((10 : ℚ) ≤ 5 ∧ (5 : ℚ) ≤ 20) := by decide

/-- C9 (counterexample): two tables whose chromosome SETS differ but whose
chromosome COUNTS agree produce no warning. -/
theorem C9_counterexample :
    (get_chrom_list [⟨"chr1", 0, 10⟩] [⟨"chr2", 0, 10⟩]).1 = false ∧
    "chr1" ∈ ([⟨"chr1", 0, 10⟩] : List Tad).map (·.chrom) ∧
    "chr1" ∉ ([⟨"chr2", 0, 10⟩] : List Tad).map (·.chrom) := by decide

/-- C9 (amended): the warning fires exactly when the NUMBERS of distinct
chromosomes differ; the processing list is always the duplicate-free
intersection of the two chromosome sets in first-table order of
appearance. -/
theorem C9_warn_on_count_mismatch (tad1 tad2 : List Tad) :
    ((get_chrom_list tad1 tad2).1 = true ↔
      (uniqueList (tad1.map (·.chrom))).length ≠
        (uniqueList (tad2.map (·.chrom))).length) ∧
    (∀ c, c ∈ (get_chrom_list tad1 tad2).2 ↔
      c ∈ tad1.map (·.chrom) ∧ c ∈ tad2.map (·.chrom)) ∧
    (get_chrom_list tad1 tad2).2.Nodup ∧
    List.Sublist (get_chrom_list tad1 tad2).2
      (uniqueList (tad1.map (·.chrom))) := by
  refine ⟨?_, ?_, ?_, ?_⟩
  · simp [get_chrom_list]
  · intro c
    simp [get_chrom_list, List.mem_filter, mem_uniqueList]
  · exact (nodup_uniqueList _).filter _
  · exact List.filter_sublist _

/-- C3 (counterexample): two main TADs sharing a start give expanded windows
with the same `start_tad1`; the duplicate check (which looks at `start_tad1`
only) then lets a `(chrom, start_tad1, end_tad1)` group with exactly ONE row
survive. -/
theorem C3_counterexample :
    (0, (⟨"c", -15, 115, 110, 10, 50, 40⟩ : IntersectRow)) ∈
      find_split [⟨"c", 0, 100⟩, ⟨"c", 0, 1000⟩]
        [⟨"c", 10, 50⟩, ⟨"c", 200, 800⟩] 10 (11 / 10) ∧
    (find_split [⟨"c", 0, 100⟩, ⟨"c", 0, 1000⟩]
        [⟨"c", 10, 50⟩, ⟨"c", 200, 800⟩] 10 (11 / 10)).countP
      (fun q => decide (rowMain q.2 = ("c", -15, 115))) = 1 := by decide

/-- C3 (amended): in `find_split`'s output every `start_tad1` VALUE (the key
the duplicate check actually uses, rather than the full
`(chrom, start_tad1, end_tad1)` key of the claim) occurs in at least two
rows. -/
theorem C3_start_value_duplicated (tad1 tad2 : List Tad)
    (binsize length_flexibility : ℚ) (p : ℕ × IntersectRow)
    (hp : p ∈ find_split tad1 tad2 binsize length_flexibility) :
    2 ≤ (find_split tad1 tad2 binsize length_flexibility).countP
      (fun q => decide (q.2.start_tad1 = p.2.start_tad1)) := by
  unfold find_split at hp ⊢
  unfold find_split_dup at hp ⊢
  have h2 := List.mem_filter.mp hp
  have h1 := List.mem_filter.mp h2.1
  have hcount : 2 ≤
      (find_split_filtered tad1 tad2 binsize length_flexibility).countP
        (fun q => decide (q.2.start_tad1 = p.2.start_tad1)) :=
    of_decide_eq_true h1.2
  have e2 := countP_filter_class (fun a : ℕ × IntersectRow => a.2.start_tad1)
    (fun s => (find_split_goodKeys tad1 tad2 binsize length_flexibility).any
      (fun k => decide (k.2.1 = s)))
    ((find_split_filtered tad1 tad2 binsize length_flexibility).filter
      (fun a =>
        decide (2 ≤
          (find_split_filtered tad1 tad2 binsize length_flexibility).countP
            (fun q => decide (q.2.start_tad1 = a.2.start_tad1)))))
    p h2.2
  have e1 := countP_filter_class (fun a : ℕ × IntersectRow => a.2.start_tad1)
    (fun s =>
      decide (2 ≤
        (find_split_filtered tad1 tad2 binsize length_flexibility).countP
          (fun q => decide (q.2.start_tad1 = s))))
    (find_split_filtered tad1 tad2 binsize length_flexibility) p h1.2
  rw [e2, e1]
  exact hcount

theorem C3_start_value_duplicated_witness :
    (0, (⟨"c", -15, 115, 110, 10, 50, 40⟩ : IntersectRow)) ∈
      find_split [⟨"c", 0, 100⟩, ⟨"c", 0, 1000⟩]
        [⟨"c", 10, 50⟩, ⟨"c", 200, 800⟩] 10 (11 / 10) ∧
    2 ≤ (find_split [⟨"c", 0, 100⟩, ⟨"c", 0, 1000⟩]
        [⟨"c", 10, 50⟩, ⟨"c", 200, 800⟩] 10 (11 / 10)).countP
      (fun q => decide (q.2.start_tad1 =
        ((0, (⟨"c", -15, 115, 110, 10, 50, 40⟩ : IntersectRow)) :
          ℕ × IntersectRow).2.start_tad1)) :=
  ⟨by decide,
   C3_start_value_duplicated [⟨"c", 0, 100⟩, ⟨"c", 0, 1000⟩]
     [⟨"c", 10, 50⟩, ⟨"c", 200, 800⟩] 10 (11 / 10)
     (0, ⟨"c", -15, 115, 110, 10, 50, 40⟩) (by decide)⟩

/-- C6 (counterexample): a group can fail the aggregate size check and still
survive in `find_split`'s output, because the final `isin` filter keys on
`start_tad1` alone and another group with the same `start_tad1` passes.
Here group `("c", -15, 115, 110)` has summed small size `125 > 110` yet its
rows are kept. -/
theorem C6_counterexample :
    (0, (⟨"c", -15, 115, 110, 0, 60, 60⟩ : IntersectRow)) ∈
      find_split [⟨"c", 0, 100⟩, ⟨"c", 0, 1000⟩]
        [⟨"c", 0, 60⟩, ⟨"c", 50, 115⟩, ⟨"c", 200, 800⟩] 10 (11 / 10) ∧
    groupSizeSum
        (find_split [⟨"c", 0, 100⟩, ⟨"c", 0, 1000⟩]
          [⟨"c", 0, 60⟩, ⟨"c", 50, 115⟩, ⟨"c", 200, 800⟩] 10 (11 / 10))
        ("c", -15, 115, 110) = 125 ∧
    ¬((125 : ℚ) ≤ 110) := by decide

/-- C6 (amended): a row survives `find_split` iff it survives the duplicate
stage AND SOME group (not necessarily its own) with the same `start_tad1`
passes the aggregate size check; the aggregate-passing groups are exactly the
duplicate-stage group keys whose summed `size_tad2` does not exceed their
`size_tad1`. -/
theorem C6_aggregate_filter_by_start (tad1 tad2 : List Tad)
    (binsize length_flexibility : ℚ) :
    (∀ p : ℕ × IntersectRow,
      p ∈ find_split tad1 tad2 binsize length_flexibility ↔
      p ∈ find_split_dup tad1 tad2 binsize length_flexibility ∧
      ∃ k ∈ find_split_goodKeys tad1 tad2 binsize length_flexibility,
        k.2.1 = p.2.start_tad1) ∧
    (∀ k : String × ℚ × ℚ × ℚ,
      k ∈ find_split_goodKeys tad1 tad2 binsize length_flexibility ↔
      (∃ q ∈ find_split_dup tad1 tad2 binsize length_flexibility,
        groupKey q.2 = k) ∧
      groupSizeSum (find_split_dup tad1 tad2 binsize length_flexibility) k ≤
        k.2.2.2) := by
  constructor
  · intro p
    unfold find_split
    rw [List.mem_filter]
    simp [List.any_eq_true]
  · intro k
    unfold find_split_goodKeys
    rw [List.mem_filter]
    simp [List.mem_dedup, List.mem_map]

/-- Splitting an `Except` bind that succeeded. -/
lemma bind_ok {α β : Type} {e : Except String α} {f : α → Except String β}
    {b : β} (h : e >>= f = .ok b) : ∃ a, e = .ok a ∧ f a = .ok b := by
  cases e with
  | error err => simp [Bind.bind, Except.bind] at h
  | ok a => exact ⟨a, rfl, by simpa [Bind.bind, Except.bind] using h⟩

/-- Splitting an `Option.elim` whose error branch did not fire. -/
lemma elim_ok {α β : Type} {o : Option α} {err : String}
    {f : α → Except String β} {b : β}
    (h : o.elim (Except.error err) f = .ok b) :
    ∃ t, o = some t ∧ f t = .ok b := by
  cases o with
  | none => exact absurd h (by simp [Option.elim])
  | some t => exact ⟨t, rfl, h⟩

/-- With an empty chromosome intersection, the accumulator remains the
column-less `pd.DataFrame()` and `main_option` fails with the `KeyError`
that `demodify_tads_map` raises inside `save_frame`. -/
lemma main_option_empty_intersection (tad1 tad2 : List Tad) (binsize : ℚ)
    (oracle : PvalueOracle) (option : String)
    (h : (get_chrom_list (if option = "merge" then tad2 else tad1)
      (if option = "merge" then tad1 else tad2)).2 = []) :
    main_option tad1 tad2 binsize oracle option =
      .error "KeyError: 'start_tad1'" := by
  simp only [main_option, h]
  rfl

/-- A successful `main_option` pass returns as its count the number of
distinct `(start_tad1, end_tad1)` pairs of the (post-`save_frame`,
demodified) final table it also returns. -/
lemma main_option_ok_count (tad1 tad2 : List Tad) (binsize : ℚ)
    (oracle : PvalueOracle) (option : String)
    (x : ℕ × List (ℕ × IntersectRow × Option ℚ) × List SavedRow)
    (h : main_option tad1 tad2 binsize oracle option = .ok x) :
    x.1 = countDistinctPairs x.2.1 := by
  simp only [main_option] at h
  obtain ⟨tbl, -, h⟩ := elim_ok h
  obtain ⟨ft, hcr, hpure⟩ := bind_ok h
  simp only [pure, Except.pure] at hpure
  injection hpure with hpure
  subst hpure
  rfl

/-- C1 (counterexample): on a concrete valid input (one common chromosome,
no split/merge candidates, so the pipeline body genuinely completes with
the pair `(0, 0)`) the decorated entry point prints the episode pair to
stdout and RETURNS `None` — it does not return the pair the claim
promises. -/
theorem C1_counterexample :
    main_split_merge_detection [⟨"c", 0, 10⟩] [⟨"c", 0, 10⟩] 10
        (fun _ _ => 0) =
      (["The number of splits|merges: (0, 0)"], none) := by decide

/-- C1 (amended): whenever the undecorated pipeline body completes with the
pair `(s, m)`, `s` and `m` are the numbers of distinct
`(start_tad1, end_tad1)` main-TAD groups of the final split and merge
tables; the decorated `main_split_merge_detection` prints that pair and
returns `None` instead of returning it. -/
theorem C1_episode_counts (tad1 tad2 : List Tad) (binsize : ℚ)
    (oracle : PvalueOracle) (s m : ℕ)
    (h : main_split_merge_detection_core tad1 tad2 binsize oracle =
      .ok (s, m)) :
    (∃ tbl saved,
      main_option tad1 tad2 binsize oracle "split" = .ok (s, tbl, saved) ∧
      s = countDistinctPairs tbl) ∧
    (∃ tbl saved,
      main_option tad1 tad2 binsize oracle "merge" = .ok (m, tbl, saved) ∧
      m = countDistinctPairs tbl) ∧
    main_split_merge_detection tad1 tad2 binsize oracle =
      (["The number of splits|merges: " ++ toString (s, m)], none) := by
  have hraw := h
  simp only [main_split_merge_detection_core] at h
  obtain ⟨a, ha, h2⟩ := bind_ok h
  obtain ⟨b, hb, h3⟩ := bind_ok h2
  simp only [pure, Except.pure] at h3
  injection h3 with h3
  have hs : a.1 = s := congrArg Prod.fst h3
  have hm : b.1 = m := congrArg Prod.snd h3
  subst hs
  subst hm
  refine ⟨⟨a.2.1, a.2.2, ha, ?_⟩, ⟨b.2.1, b.2.2, hb, ?_⟩, ?_⟩
  · exact main_option_ok_count tad1 tad2 binsize oracle "split" a ha
  · exact main_option_ok_count tad1 tad2 binsize oracle "merge" b hb
  · simp [main_split_merge_detection, wrapper_print, hraw]

theorem C1_episode_counts_witness :
    main_split_merge_detection_core [⟨"c", 0, 10⟩] [⟨"c", 0, 10⟩] 10
        (fun _ _ => 0) = .ok (0, 0) ∧
    ((∃ tbl saved,
        main_option [⟨"c", 0, 10⟩] [⟨"c", 0, 10⟩] 10 (fun _ _ => 0)
          "split" = .ok (0, tbl, saved) ∧
        0 = countDistinctPairs tbl) ∧
      (∃ tbl saved,
        main_option [⟨"c", 0, 10⟩] [⟨"c", 0, 10⟩] 10 (fun _ _ => 0)
          "merge" = .ok (0, tbl, saved) ∧
        0 = countDistinctPairs tbl) ∧
      main_split_merge_detection [⟨"c", 0, 10⟩] [⟨"c", 0, 10⟩] 10
          (fun _ _ => 0) =
        (["The number of splits|merges: " ++ toString ((0 : ℕ), (0 : ℕ))],
          none)) :=
  ⟨rfl,
   C1_episode_counts [⟨"c", 0, 10⟩] [⟨"c", 0, 10⟩] 10 (fun _ _ => 0) 0 0
     rfl⟩

/-- Absorbing a block of rows that continue the current run: labels are
neither `0` nor the last label, and the key matches the current
`main_tad_coords`, so the loop only appends. -/
lemma go_rows (oracle : PvalueOracle) (lastLabel : ℕ) (m : String × ℚ × ℚ) :
    ∀ (rows rest : List (ℕ × IntersectRow)) (sm : List (ℚ × ℚ))
      (bg : List ℕ) (asg : List (ℕ × ℕ × ℚ)),
      (∀ p ∈ rows, rowMain p.2 = m) →
      (∀ p ∈ rows, p.1 ≠ 0) →
      (∀ p ∈ rows, p.1 ≠ lastLabel) →
      chooseRegionGo oracle lastLabel ⟨some m, sm, bg, asg⟩ (rows ++ rest) =
        chooseRegionGo oracle lastLabel
          ⟨some m, sm ++ runSmalls rows, bg ++ runLabels rows, asg⟩ rest
  | [], rest, sm, bg, asg, _, _, _ => by simp [runSmalls, runLabels]
  | (i, r) :: rows, rest, sm, bg, asg, hk, h0, hl => by
    have hkey : rowMain r = m := hk (i, r) (List.mem_cons_self _ _)
    have hi0 : i ≠ 0 := h0 (i, r) (List.mem_cons_self _ _)
    have hil : i ≠ lastLabel := hl (i, r) (List.mem_cons_self _ _)
    rw [List.cons_append]
    simp only [chooseRegionGo, if_neg hi0]
    rw [if_pos hkey.symm]
    simp only [appendRow, if_neg hil]
    rw [go_rows oracle lastLabel m rows rest (sm ++ [rowSmall r]) (bg ++ [i])
      asg
      (fun p hp => hk p (List.mem_cons_of_mem _ hp))
      (fun p hp => h0 p (List.mem_cons_of_mem _ hp))
      (fun p hp => hl p (List.mem_cons_of_mem _ hp))]
    simp [runSmalls, runLabels]

/-- The first row of the table (label `0`, not the last label): it binds
`main_tad_coords` and is appended; nothing is flushed. -/
lemma go_first_row (oracle : PvalueOracle) (lastLabel : ℕ) (r : IntersectRow)
    (rest : List (ℕ × IntersectRow)) (mo : Option (String × ℚ × ℚ))
    (sm : List (ℚ × ℚ)) (bg : List ℕ) (asg : List (ℕ × ℕ × ℚ))
    (h0l : (0 : ℕ) ≠ lastLabel) :
    chooseRegionGo oracle lastLabel ⟨mo, sm, bg, asg⟩ ((0, r) :: rest) =
      chooseRegionGo oracle lastLabel
        ⟨some (rowMain r), sm ++ [rowSmall r], bg ++ [0], asg⟩ rest := by
  simp [chooseRegionGo, appendRow, h0l]

/-- The single row of a one-row table (label `0` equal to the last label):
it binds `main_tad_coords`, is appended, and is immediately flushed. -/
lemma go_first_row_last (oracle : PvalueOracle) (r : IntersectRow)
    (rest : List (ℕ × IntersectRow)) (mo : Option (String × ℚ × ℚ))
    (sm : List (ℚ × ℚ)) (asg : List (ℕ × ℕ × ℚ)) :
    chooseRegionGo oracle 0 ⟨mo, sm, [], asg⟩ ((0, r) :: rest) =
      chooseRegionGo oracle 0
        ⟨some (rowMain r), sm ++ [rowSmall r], [0],
          asg ++ [(0, 0, oracle (rowMain r) (sm ++ [rowSmall r]))]⟩
        rest := by
  simp [chooseRegionGo, appendRow]

/-- Entering a new run (key change, label neither `0` nor last): the
previous run is flushed with its first and last recorded labels, and the
state is reset to the new row. -/
lemma go_enter_run (oracle : PvalueOracle) (lastLabel i : ℕ)
    (r : IntersectRow) (rest : List (ℕ × IntersectRow))
    (m' : String × ℚ × ℚ) (sm : List (ℚ × ℚ)) (bg : List ℕ)
    (asg : List (ℕ × ℕ × ℚ)) (f l : ℕ)
    (hhead : bg.head? = some f) (hlast : bg.getLast? = some l)
    (hi0 : i ≠ 0) (hm' : m' ≠ rowMain r) (hil : i ≠ lastLabel) :
    chooseRegionGo oracle lastLabel ⟨some m', sm, bg, asg⟩ ((i, r) :: rest) =
      chooseRegionGo oracle lastLabel
        ⟨some (rowMain r), [rowSmall r], [i],
          asg ++ [(f, l, oracle m' sm)]⟩ rest := by
  simp [chooseRegionGo, appendRow, hhead, hlast, hi0, hm', hil]

/-- Entering a new run on the LAST row (a final run with a single row): the
previous run is flushed and the new singleton run is flushed right after. -/
lemma go_enter_run_last (oracle : PvalueOracle) (lastLabel : ℕ)
    (r : IntersectRow) (rest : List (ℕ × IntersectRow))
    (m' : String × ℚ × ℚ) (sm : List (ℚ × ℚ)) (bg : List ℕ)
    (asg : List (ℕ × ℕ × ℚ)) (f l : ℕ)
    (hhead : bg.head? = some f) (hlast : bg.getLast? = some l)
    (hi0 : lastLabel ≠ 0) (hm' : m' ≠ rowMain r) :
    chooseRegionGo oracle lastLabel ⟨some m', sm, bg, asg⟩
        ((lastLabel, r) :: rest) =
      chooseRegionGo oracle lastLabel
        ⟨some (rowMain r), [rowSmall r], [lastLabel],
          asg ++ [(f, l, oracle m' sm),
            (lastLabel, lastLabel, oracle (rowMain r) [rowSmall r])]⟩ rest := by
  simp [chooseRegionGo, appendRow, hhead, hlast, hi0, hm']

/-- The last row of the table when it continues the current run: it is
appended and the whole current run is flushed. -/
lemma go_row_last (oracle : PvalueOracle) (lastLabel : ℕ) (r : IntersectRow)
    (rest : List (ℕ × IntersectRow)) (m : String × ℚ × ℚ)
    (sm : List (ℚ × ℚ)) (bg : List ℕ) (asg : List (ℕ × ℕ × ℚ)) (f : ℕ)
    (hi0 : lastLabel ≠ 0) (hkey : rowMain r = m)
    (hhead : (bg ++ [lastLabel]).head? = some f) :
    chooseRegionGo oracle lastLabel ⟨some m, sm, bg, asg⟩
        ((lastLabel, r) :: rest) =
      chooseRegionGo oracle lastLabel
        ⟨some m, sm ++ [rowSmall r], bg ++ [lastLabel],
          asg ++ [(f, lastLabel, oracle m (sm ++ [rowSmall r]))]⟩ rest := by
  simp only [chooseRegionGo, if_neg hi0]
  rw [if_pos hkey.symm]
  simp only [appendRow, if_pos rfl]
  rw [hhead, List.getLast?_concat]
  simp

/-- Processing one complete non-final run from the state left by the
previous run: the previous run is flushed and the state ends holding the new
run. -/
lemma go_middle_run (oracle : PvalueOracle) (lastLabel : ℕ)
    (run rest : List (ℕ × IntersectRow)) (m' : String × ℚ × ℚ)
    (sm : List (ℚ × ℚ)) (bg : List ℕ) (asg : List (ℕ × ℕ × ℚ)) (f l : ℕ)
    (hhead : bg.head? = some f) (hlast : bg.getLast? = some l)
    (hne : run ≠ [])
    (hk : ∀ p ∈ run, rowMain p.2 = runKeyD run)
    (hm' : m' ≠ runKeyD run)
    (h0 : ∀ p ∈ run, p.1 ≠ 0)
    (hnl : ∀ p ∈ run, p.1 ≠ lastLabel) :
    chooseRegionGo oracle lastLabel ⟨some m', sm, bg, asg⟩ (run ++ rest) =
      chooseRegionGo oracle lastLabel
        ⟨some (runKeyD run), runSmalls run, runLabels run,
          asg ++ [(f, l, oracle m' sm)]⟩ rest := by
  cases run with
  | nil => exact absurd rfl hne
  | cons hd tl =>
    obtain ⟨i, r⟩ := hd
    have hkd : runKeyD ((i, r) :: tl) = rowMain r := rfl
    rw [List.cons_append]
    rw [go_enter_run oracle lastLabel i r (tl ++ rest) m' sm bg asg f l hhead
      hlast (h0 _ (List.mem_cons_self _ _)) (by rw [hkd] at hm'; exact hm')
      (hnl _ (List.mem_cons_self _ _))]
    rw [go_rows oracle lastLabel (rowMain r) tl rest [rowSmall r] [i]
      (asg ++ [(f, l, oracle m' sm)])
      (fun p hp => by
        rw [hk p (List.mem_cons_of_mem _ hp), hkd])
      (fun p hp => h0 p (List.mem_cons_of_mem _ hp))
      (fun p hp => hnl p (List.mem_cons_of_mem _ hp))]
    rw [hkd]
    rfl

/-- Processing the final run (the run containing the last label) from the
state left by the previous run: the previous run is flushed on entry and the
final run is flushed by the `index == df.index[-1]` check; the loop then
returns the accumulated assignments. -/
lemma go_final_run (oracle : PvalueOracle) (lastLabel : ℕ)
    (run : List (ℕ × IntersectRow)) (m' : String × ℚ × ℚ)
    (sm : List (ℚ × ℚ)) (bg : List ℕ) (asg : List (ℕ × ℕ × ℚ)) (f l : ℕ)
    (hhead : bg.head? = some f) (hlast : bg.getLast? = some l)
    (hne : run ≠ [])
    (hk : ∀ p ∈ run, rowMain p.2 = runKeyD run)
    (hm' : m' ≠ runKeyD run)
    (h0 : ∀ p ∈ run, p.1 ≠ 0)
    (hlastrow : (runLabels run).getLast? = some lastLabel)
    (hbody : ∀ p ∈ run.dropLast, p.1 ≠ lastLabel) :
    chooseRegionGo oracle lastLabel ⟨some m', sm, bg, asg⟩ run =
      .ok (asg ++ [(f, l, oracle m' sm), runAssign oracle run]) := by
  rcases List.eq_nil_or_concat run with hcon | ⟨L, b, hcon⟩
  · exact absurd hcon hne
  obtain ⟨ib, rb⟩ := b
  rw [List.concat_eq_append] at hcon
  subst hcon
  have hib : lastLabel = ib := by
    have : (runLabels (L ++ [(ib, rb)])).getLast? = some ib := by
      simp [runLabels, List.getLast?_concat]
    rw [this] at hlastrow
    exact (Option.some.inj hlastrow).symm
  subst hib
  have hdrop : (L ++ [(lastLabel, rb)]).dropLast = L := by
    simp
  cases L with
  | nil =>
    have hkd : runKeyD ([] ++ [(lastLabel, rb)]) = rowMain rb := rfl
    have h0' : lastLabel ≠ 0 :=
      h0 (lastLabel, rb) (by simp)
    rw [List.nil_append]
    rw [go_enter_run_last oracle lastLabel rb [] m' sm bg asg f l hhead hlast
      h0' (by rw [hkd] at hm'; exact hm')]
    simp [chooseRegionGo, runAssign, runLabels, runSmalls, runKeyD]
  | cons c L' =>
    obtain ⟨ic, rc⟩ := c
    have hkd : runKeyD (((ic, rc) :: L') ++ [(lastLabel, rb)]) =
        rowMain rc := rfl
    have hcmem : (ic, rc) ∈ ((ic, rc) :: L') ++ [(lastLabel, rb)] := by simp
    have hicl : ic ≠ lastLabel := by
      have : (ic, rc) ∈ (((ic, rc) :: L') ++ [(lastLabel, rb)]).dropLast := by
        rw [hdrop]
        exact List.mem_cons_self _ _
      exact hbody _ this
    rw [List.cons_append]
    rw [go_enter_run oracle lastLabel ic rc (L' ++ [(lastLabel, rb)]) m' sm bg
      asg f l hhead hlast (h0 _ hcmem) (by rw [hkd] at hm'; exact hm') hicl]
    rw [go_rows oracle lastLabel (rowMain rc) L' [(lastLabel, rb)]
      [rowSmall rc] [ic] (asg ++ [(f, l, oracle m' sm)])
      (fun p hp => by
        rw [hk p (by simp [List.mem_cons_of_mem, hp]), hkd])
      (fun p hp => h0 p (by simp [hp]))
      (fun p hp => by
        refine hbody p ?_
        rw [hdrop]
        exact List.mem_cons_of_mem _ hp)]
    rw [go_row_last oracle lastLabel rb [] (rowMain rc)
      ([rowSmall rc] ++ runSmalls L') ([ic] ++ runLabels L')
      (asg ++ [(f, l, oracle m' sm)]) ic (by
        have : (lastLabel, rb) ∈ ((ic, rc) :: L') ++ [(lastLabel, rb)] := by
          simp
        exact h0 _ this)
      (by
        have : (lastLabel, rb) ∈ ((ic, rc) :: L') ++ [(lastLabel, rb)] := by
          simp
        rw [hk _ this, hkd])
      rfl]
    simp [chooseRegionGo, runAssign, runLabels, runSmalls, runKeyD,
      List.getLast?_concat]
    rw [show ic :: (List.map Prod.fst L' ++ [lastLabel]) =
        (ic :: List.map Prod.fst L') ++ [lastLabel] from rfl,
      List.getLast?_concat]
    rfl

/-- A non-empty list has a first and a last element. -/
lemma ne_nil_head_getLast {α : Type} (l : List α) (h : l ≠ []) :
    ∃ f g, l.head? = some f ∧ l.getLast? = some g := by
  cases hf : l.head? with
  | none => exact absurd (List.head?_eq_none_iff.mp hf) h
  | some f =>
    cases hg : l.getLast? with
    | none => exact absurd (List.getLast?_eq_none_iff.mp hg) h
    | some g => exact ⟨f, g, rfl, rfl⟩

/-- Main engine: processing the remaining runs from the state holding the
previous (unflushed) run appends exactly one `loc` write per run. -/
lemma go_runs (oracle : PvalueOracle) (lastLabel : ℕ) :
    ∀ (runs : List (List (ℕ × IntersectRow)))
      (prev : List (ℕ × IntersectRow)) (asg : List (ℕ × ℕ × ℚ)),
      prev ≠ [] →
      (∀ run ∈ runs, run ≠ []) →
      (∀ run ∈ runs, ∀ p ∈ run, rowMain p.2 = runKeyD run) →
      List.Chain' (fun r1 r2 => runKeyD r1 ≠ runKeyD r2) (prev :: runs) →
      (∀ p ∈ runs.flatten, p.1 ≠ 0) →
      ((runs.flatten.map Prod.fst).getLast? = some lastLabel) →
      (∀ p ∈ runs.flatten.dropLast, p.1 ≠ lastLabel) →
      chooseRegionGo oracle lastLabel
        ⟨some (runKeyD prev), runSmalls prev, runLabels prev, asg⟩
        runs.flatten =
        .ok (asg ++ (prev :: runs).map (runAssign oracle))
  | [], prev, asg, _, _, _, _, _, hlastl, _ => by
    simp at hlastl
  | [run], prev, asg, hprev, hne, hconst, hchain, h0, hlastl, hbody => by
    obtain ⟨f, l, hf, hl⟩ :=
      ne_nil_head_getLast (runLabels prev)
        (by simpa [runLabels] using hprev)
    have hrun : run ≠ [] := hne run (List.mem_cons_self _ _)
    have hR : runKeyD prev ≠ runKeyD run := (List.chain'_cons.mp hchain).1
    simp only [List.flatten_cons, List.flatten_nil,
      List.append_nil] at h0 hlastl hbody ⊢
    rw [go_final_run oracle lastLabel run (runKeyD prev) (runSmalls prev)
      (runLabels prev) asg f l hf hl hrun
      (hconst run (List.mem_cons_self _ _)) hR h0
      (by simpa [runLabels] using hlastl) hbody]
    simp [runAssign, hf, hl]
  | run :: run2 :: rest, prev, asg, hprev, hne, hconst, hchain, h0, hlastl,
      hbody => by
    obtain ⟨f, l, hf, hl⟩ :=
      ne_nil_head_getLast (runLabels prev)
        (by simpa [runLabels] using hprev)
    have hrun : run ≠ [] := hne run (List.mem_cons_self _ _)
    have hrest_ne : (run2 :: rest).flatten ≠ [] := by
      have h2 : run2 ≠ [] := hne run2 (by simp)
      simp only [List.flatten_cons]
      intro hcontra
      exact h2 (List.append_eq_nil.mp hcontra).1
    have hR : runKeyD prev ≠ runKeyD run := (List.chain'_cons.mp hchain).1
    have hdrop : (run ++ (run2 :: rest).flatten).dropLast =
        run ++ ((run2 :: rest).flatten).dropLast :=
      List.dropLast_append_of_ne_nil run hrest_ne
    rw [List.flatten_cons] at h0 hlastl hbody ⊢
    rw [go_middle_run oracle lastLabel run ((run2 :: rest).flatten)
      (runKeyD prev) (runSmalls prev) (runLabels prev) asg f l hf hl hrun
      (hconst run (List.mem_cons_self _ _)) hR
      (fun p hp => h0 p (List.mem_append_left _ hp))
      (fun p hp => by
        refine hbody p ?_
        rw [hdrop]
        exact List.mem_append_left _ hp)]
    rw [go_runs oracle lastLabel (run2 :: rest) run
      (asg ++ [(f, l, oracle (runKeyD prev) (runSmalls prev))]) hrun
      (fun r hr => hne r (List.mem_cons_of_mem _ hr))
      (fun r hr => hconst r (List.mem_cons_of_mem _ hr))
      (List.chain'_cons.mp hchain).2
      (fun p hp => h0 p (List.mem_append_right _ hp))
      (by
        obtain ⟨g, hg⟩ :
            ∃ g, (((run2 :: rest).flatten).map Prod.fst).getLast? = some g :=
          by
            obtain ⟨-, g, -, hg⟩ :=
              ne_nil_head_getLast (((run2 :: rest).flatten).map Prod.fst)
                (by simpa using hrest_ne)
            exact ⟨g, hg⟩
        rw [hg]
        rw [List.map_append, List.getLast?_append, hg] at hlastl
        simpa using hlastl)
      (fun p hp => by
        refine hbody p ?_
        rw [hdrop]
        exact List.mem_append_right _ hp)]
    simp [runAssign, hf, hl]

/-- Finishing the run currently held in the state when it is the final run:
the remaining rows of the run are appended and the whole run (state prefix
included) is flushed at the last label. -/
lemma go_cont_final_run (oracle : PvalueOracle) (lastLabel : ℕ)
    (rows : List (ℕ × IntersectRow)) (m : String × ℚ × ℚ)
    (sm : List (ℚ × ℚ)) (bg : List ℕ) (asg : List (ℕ × ℕ × ℚ)) (f : ℕ)
    (hne : rows ≠ [])
    (hk : ∀ p ∈ rows, rowMain p.2 = m)
    (h0 : ∀ p ∈ rows, p.1 ≠ 0)
    (hlastrow : (runLabels rows).getLast? = some lastLabel)
    (hbody : ∀ p ∈ rows.dropLast, p.1 ≠ lastLabel)
    (hf : (bg ++ runLabels rows).head? = some f) :
    chooseRegionGo oracle lastLabel ⟨some m, sm, bg, asg⟩ rows =
      .ok (asg ++ [(f, lastLabel, oracle m (sm ++ runSmalls rows))]) := by
  rcases List.eq_nil_or_concat rows with hcon | ⟨L, b, hcon⟩
  · exact absurd hcon hne
  obtain ⟨ib, rb⟩ := b
  rw [List.concat_eq_append] at hcon
  subst hcon
  have hib : lastLabel = ib := by
    have h1 : (runLabels (L ++ [(ib, rb)])).getLast? = some ib := by
      simp [runLabels, List.getLast?_concat]
    rw [h1] at hlastrow
    exact (Option.some.inj hlastrow).symm
  subst hib
  have hdrop : (L ++ [(lastLabel, rb)]).dropLast = L := by simp
  have hbmem : (lastLabel, rb) ∈ L ++ [(lastLabel, rb)] := by simp
  rw [go_rows oracle lastLabel m L [(lastLabel, rb)] sm bg asg
    (fun p hp => hk p (List.mem_append_left _ hp))
    (fun p hp => h0 p (List.mem_append_left _ hp))
    (fun p hp => by
      refine hbody p ?_
      rw [hdrop]
      exact hp)]
  have hf2 : ((bg ++ runLabels L) ++ [lastLabel]).head? = some f := by
    have : (bg ++ runLabels L) ++ [lastLabel] = bg ++ runLabels (L ++ [(lastLabel, rb)]) := by
      simp [runLabels]
    rw [this]
    exact hf
  rw [go_row_last oracle lastLabel rb [] m (sm ++ runSmalls L)
    (bg ++ runLabels L) asg f (h0 _ hbmem) (hk _ hbmem) hf2]
  simp [chooseRegionGo, runSmalls]

/-- Full characterization of the `choose_region` loop on a well-formed run
decomposition, starting from the initial (unbound) state: it succeeds and
records exactly one `loc` write per run. -/
lemma go_all (oracle : PvalueOracle) (lastLabel : ℕ)
    (runs : List (List (ℕ × IntersectRow)))
    (hruns_ne : runs ≠ [])
    (hne : ∀ run ∈ runs, run ≠ [])
    (hconst : ∀ run ∈ runs, ∀ p ∈ run, rowMain p.2 = runKeyD run)
    (hchain : List.Chain' (fun r1 r2 => runKeyD r1 ≠ runKeyD r2) runs)
    (hfirst : (runs.flatten.map Prod.fst).head? = some 0)
    (h0tail : ∀ p ∈ runs.flatten.tail, p.1 ≠ 0)
    (hlastl : (runs.flatten.map Prod.fst).getLast? = some lastLabel)
    (hbody : ∀ p ∈ runs.flatten.dropLast, p.1 ≠ lastLabel) :
    chooseRegionGo oracle lastLabel ⟨none, [], [], []⟩ runs.flatten =
      .ok (runs.map (runAssign oracle)) := by
  cases runs with
  | nil => exact absurd rfl hruns_ne
  | cons run0 runs' =>
  cases run0 with
  | nil => exact absurd rfl (hne [] (List.mem_cons_self _ _))
  | cons p0 tl0 =>
  obtain ⟨i0, r0⟩ := p0
  have hi0 : i0 = 0 := by
    have h1 : ((((i0, r0) :: tl0) :: runs').flatten.map Prod.fst).head? =
        some i0 := by simp
    rw [h1] at hfirst
    exact Option.some.inj hfirst
  subst hi0
  have hkd : runKeyD ((0, r0) :: tl0) = rowMain r0 := rfl
  have hconst0 := hconst _ (List.mem_cons_self _ _)
  have hflat : (((0, r0) :: tl0) :: runs').flatten =
      (0, r0) :: (tl0 ++ runs'.flatten) := by simp
  have htail : (((0, r0) :: tl0) :: runs').flatten.tail =
      tl0 ++ runs'.flatten := by rw [hflat]; rfl
  by_cases hrest : tl0 ++ runs'.flatten = []
  · -- the table is the single row (0, r0)
    have htl0 : tl0 = [] := (List.append_eq_nil.mp hrest).1
    have hfl' : runs'.flatten = [] := (List.append_eq_nil.mp hrest).2
    have hruns' : runs' = [] := by
      cases runs' with
      | nil => rfl
      | cons r2 rr =>
        exfalso
        have h2 : r2 ≠ [] := hne r2 (by simp)
        rw [List.flatten_cons] at hfl'
        exact h2 (List.append_eq_nil.mp hfl').1
    subst htl0
    subst hruns'
    have hll : lastLabel = 0 := by
      have h1 : (([(0, r0)] :: ([] : List (List (ℕ × IntersectRow)))).flatten.map
          Prod.fst).getLast? = some 0 := by simp
      rw [h1] at hlastl
      exact (Option.some.inj hlastl).symm
    subst hll
    rw [List.flatten_cons, List.flatten_nil, List.append_nil]
    rw [go_first_row_last oracle r0 [] none [] []]
    simp [chooseRegionGo, runAssign, runLabels, runSmalls, runKeyD]
  · -- at least two rows: lastLabel is the label of a tail row, hence ≠ 0
    have hMne : (tl0 ++ runs'.flatten).map Prod.fst ≠ [] := by
      simpa using hrest
    obtain ⟨g, hg⟩ :
        ∃ g, ((tl0 ++ runs'.flatten).map Prod.fst).getLast? = some g := by
      obtain ⟨-, g, -, hgg⟩ :=
        ne_nil_head_getLast ((tl0 ++ runs'.flatten).map Prod.fst) hMne
      exact ⟨g, hgg⟩
    have hllg : lastLabel = g := by
      have h1 : ((((0, r0) :: tl0) :: runs').flatten.map Prod.fst).getLast? =
          some g := by
        rw [hflat, List.map_cons]
        rw [show ((0 : ℕ) :: (tl0 ++ runs'.flatten).map Prod.fst) =
          [0] ++ (tl0 ++ runs'.flatten).map Prod.fst from rfl]
        rw [List.getLast?_append, hg]
        rfl
      rw [h1] at hlastl
      exact (Option.some.inj hlastl).symm
    have hlast_ne0 : lastLabel ≠ 0 := by
      obtain ⟨p, hpmem, hpg⟩ := List.mem_map.mp
        (List.mem_of_getLast?_eq_some hg)
      have hp0 : p.1 ≠ 0 := h0tail p (by rw [htail]; exact hpmem)
      rw [hllg, ← hpg]
      exact hp0
    have h0l : (0 : ℕ) ≠ lastLabel := fun h => hlast_ne0 h.symm
    have htl0keys : ∀ p ∈ tl0, rowMain p.2 = rowMain r0 := fun p hp => by
      rw [hconst0 p (List.mem_cons_of_mem _ hp), hkd]
    have htl00 : ∀ p ∈ tl0, p.1 ≠ 0 := fun p hp =>
      h0tail p (by rw [htail]; exact List.mem_append_left _ hp)
    cases hruns'e : runs' with
    | nil =>
      subst hruns'e
      simp only [List.flatten_nil, List.append_nil] at hflat htail hrest hMne hg
      have htl0ne : tl0 ≠ [] := hrest
      have hlasttl0 : (runLabels tl0).getLast? = some lastLabel := by
        rw [hllg]
        simpa [runLabels] using hg
      have hbodytl0 : ∀ p ∈ tl0.dropLast, p.1 ≠ lastLabel := by
        intro p hp
        refine hbody p ?_
        rw [hflat]
        rw [show ((0, r0) :: tl0) = [(0, r0)] ++ tl0 from rfl]
        rw [List.dropLast_append_of_ne_nil [(0, r0)] htl0ne]
        exact List.mem_append_right _ hp
      rw [show ([(0, r0) :: tl0] :
          List (List (ℕ × IntersectRow))).flatten = (0, r0) :: tl0 from hflat]
      rw [go_first_row oracle lastLabel r0 tl0 none [] [] [] h0l]
      simp only [List.nil_append]
      rw [go_cont_final_run oracle lastLabel tl0 (rowMain r0) [rowSmall r0]
        [0] [] 0 htl0ne htl0keys htl00 hlasttl0 hbodytl0 rfl]
      have hlast01 : (runLabels ((0, r0) :: tl0)).getLast? = some lastLabel := by
        rw [show runLabels ((0, r0) :: tl0) = [0] ++ runLabels tl0 from rfl]
        rw [List.getLast?_append, hlasttl0]
        rfl
      simp [runAssign, runSmalls, hlast01, hkd]
      rfl
    | cons r2 rr =>
      have hys_ne : (r2 :: rr).flatten ≠ [] := by
        have h2 : r2 ≠ [] := hne r2 (by rw [hruns'e]; simp)
        simp only [List.flatten_cons]
        intro hcontra
        exact h2 (List.append_eq_nil.mp hcontra).1
      subst hruns'e
      have hys_map_ne : ((r2 :: rr).flatten).map Prod.fst ≠ [] := by
        simpa using hys_ne
      obtain ⟨gy, hgy⟩ :
          ∃ gy, (((r2 :: rr).flatten).map Prod.fst).getLast? = some gy := by
        obtain ⟨-, gy, -, hggy⟩ :=
          ne_nil_head_getLast (((r2 :: rr).flatten).map Prod.fst) hys_map_ne
        exact ⟨gy, hggy⟩
      have hllgy : lastLabel = gy := by
        rw [hllg]
        have : ((tl0 ++ (r2 :: rr).flatten).map Prod.fst).getLast? =
            some gy := by
          rw [List.map_append, List.getLast?_append, hgy]
          rfl
        rw [this] at hg
        exact (Option.some.inj hg).symm
      have hdropflat : (((0, r0) :: tl0) :: r2 :: rr).flatten.dropLast =
          ((0, r0) :: tl0) ++ ((r2 :: rr).flatten).dropLast := by
        rw [List.flatten_cons]
        exact List.dropLast_append_of_ne_nil ((0, r0) :: tl0) hys_ne
      have htl0nl : ∀ p ∈ tl0, p.1 ≠ lastLabel := by
        intro p hp
        refine hbody p ?_
        rw [hdropflat]
        exact List.mem_append_left _ (List.mem_cons_of_mem _ hp)
      rw [List.flatten_cons, List.cons_append]
      rw [go_first_row oracle lastLabel r0 (tl0 ++ (r2 :: rr).flatten) none
        [] [] [] h0l]
      simp only [List.nil_append]
      rw [go_rows oracle lastLabel (rowMain r0) tl0 ((r2 :: rr).flatten)
        [rowSmall r0] [0] [] htl0keys htl00 htl0nl]
      rw [show ([rowSmall r0] ++ runSmalls tl0) =
        runSmalls ((0, r0) :: tl0) from rfl]
      rw [show (([0] : List ℕ) ++ runLabels tl0) =
        runLabels ((0, r0) :: tl0) from rfl]
      rw [show (some (rowMain r0)) =
        some (runKeyD ((0, r0) :: tl0)) from rfl]
      rw [go_runs oracle lastLabel (r2 :: rr) ((0, r0) :: tl0) []
        (List.cons_ne_nil _ _)
        (fun r hr => hne r (List.mem_cons_of_mem _ hr))
        (fun r hr => hconst r (List.mem_cons_of_mem _ hr))
        hchain
        (fun p hp => h0tail p
          (by rw [htail]; exact List.mem_append_right _ hp))
        (by rw [← hllgy] at hgy; exact hgy)
        (fun p hp => by
          refine hbody p ?_
          rw [hdropflat]
          exact List.mem_append_right _ hp)]
      simp

/-- In a strictly increasing list, the head is a lower bound. -/
lemma sorted_head_le (l : List ℕ) (hs : l.Pairwise (· < ·)) (x : ℕ)
    (hx : x ∈ l) (f : ℕ) (hf : l.head? = some f) : f ≤ x := by
  cases l with
  | nil => cases hx
  | cons a t =>
    injection hf with hf
    subst hf
    rcases List.mem_cons.mp hx with rfl | hx'
    · exact le_refl x
    · exact le_of_lt ((List.pairwise_cons.mp hs).1 x hx')

/-- In a strictly increasing list, the last element is an upper bound. -/
lemma sorted_le_getLast :
    ∀ (l : List ℕ), l.Pairwise (· < ·) → ∀ x ∈ l,
      ∀ g, l.getLast? = some g → x ≤ g
  | [], _, x, hx, _, _ => by cases hx
  | [a], _, x, hx, g, hg => by
    rcases List.mem_singleton.mp hx with rfl
    have hxg : some x = some g := by simpa using hg
    exact le_of_eq (Option.some.inj hxg)
  | a :: b :: t, hs, x, hx, g, hg => by
    rw [List.getLast?_cons_cons] at hg
    rcases List.mem_cons.mp hx with rfl | hx'
    · exact le_of_lt ((List.pairwise_cons.mp hs).1 g
        (List.mem_of_getLast?_eq_some hg))
    · exact sorted_le_getLast (b :: t) (List.pairwise_cons.mp hs).2 x hx' g hg

/-- Cross ordering of labels for concatenated row blocks. -/
lemma sorted_cross {xs ys : List (ℕ × IntersectRow)}
    (hs : ((xs ++ ys).map Prod.fst).Pairwise (· < ·))
    {q p : ℕ × IntersectRow} (hq : q ∈ xs) (hp : p ∈ ys) : q.1 < p.1 := by
  rw [List.map_append] at hs
  exact (List.pairwise_append.mp hs).2.2 q.1 (List.mem_map_of_mem _ hq) p.1
    (List.mem_map_of_mem _ hp)

/-- The broadcast step: on a strictly-sorted run decomposition, the label of
a row of `run` falls in `run`'s own `loc` interval and in no other run's
interval, so the last matching write is exactly `run`'s write. -/
lemma applyAssigns_runs (oracle : PvalueOracle)
    (before after : List (List (ℕ × IntersectRow)))
    (run : List (ℕ × IntersectRow)) (p : ℕ × IntersectRow)
    (hp : p ∈ run)
    (hne : ∀ rn ∈ before ++ run :: after, rn ≠ [])
    (hsorted :
      ((before ++ run :: after).flatten.map Prod.fst).Pairwise (· < ·)) :
    applyAssigns ((before ++ run :: after).map (runAssign oracle)) p.1 =
      some (oracle (runKeyD run) (runSmalls run)) := by
  have hflat : (before ++ run :: after).flatten =
      before.flatten ++ (run ++ after.flatten) := by
    rw [List.flatten_append, List.flatten_cons]
  have hflat2 : (before ++ run :: after).flatten =
      (before.flatten ++ run) ++ after.flatten := by
    rw [hflat, List.append_assoc]
  have hrun_ne : run ≠ [] := hne run (by simp)
  obtain ⟨f, g, hf, hg⟩ := ne_nil_head_getLast (runLabels run)
    (by simpa [runLabels] using hrun_ne)
  have hrun_sorted : (runLabels run).Pairwise (· < ·) := by
    have hsub : run.Sublist (before ++ run :: after).flatten :=
      List.sublist_flatten_of_mem (by simp)
    exact (hsorted.sublist (hsub.map Prod.fst))
  have hp1mem : p.1 ∈ runLabels run := List.mem_map_of_mem _ hp
  have hown : decide ((runAssign oracle run).1 ≤ p.1 ∧
      p.1 ≤ (runAssign oracle run).2.1) = true := by
    rw [decide_eq_true_iff]
    constructor
    · rw [show (runAssign oracle run).1 = ((runLabels run).head?).getD 0
        from rfl, hf]
      exact sorted_head_le (runLabels run) hrun_sorted p.1 hp1mem f hf
    · rw [show (runAssign oracle run).2.1 = ((runLabels run).getLast?).getD 0
        from rfl, hg]
      exact sorted_le_getLast (runLabels run) hrun_sorted p.1 hp1mem g hg
  have hbefore : (before.map (runAssign oracle)).filter
      (fun a => decide (a.1 ≤ p.1 ∧ p.1 ≤ a.2.1)) = [] := by
    refine List.filter_eq_nil_iff.mpr ?_
    intro a ha
    obtain ⟨rn, hrn, rfl⟩ := List.mem_map.mp ha
    obtain ⟨frn, grn, hfrn, hgrn⟩ := ne_nil_head_getLast (runLabels rn)
      (by simpa [runLabels] using hne rn (List.mem_append_left _ hrn))
    obtain ⟨q, hqrn, hq1⟩ := List.mem_map.mp
      (List.mem_of_getLast?_eq_some hgrn)
    have hlt : grn < p.1 := by
      rw [← hq1]
      exact sorted_cross (by rw [← hflat]; exact hsorted)
        (List.mem_flatten_of_mem hrn hqrn) (List.mem_append_left _ hp)
    rw [show (runAssign oracle rn).2.1 = ((runLabels rn).getLast?).getD 0
      from rfl, hgrn]
    simp only [decide_eq_true_iff, Option.getD_some, not_and]
    intro h1
    omega
  have hafter : (after.map (runAssign oracle)).filter
      (fun a => decide (a.1 ≤ p.1 ∧ p.1 ≤ a.2.1)) = [] := by
    refine List.filter_eq_nil_iff.mpr ?_
    intro a ha
    obtain ⟨rn, hrn, rfl⟩ := List.mem_map.mp ha
    obtain ⟨frn, grn, hfrn, hgrn⟩ := ne_nil_head_getLast (runLabels rn)
      (by simpa [runLabels] using
        hne rn (List.mem_append_right _ (List.mem_cons_of_mem _ hrn)))
    have hfrnmem : frn ∈ runLabels rn := by
      obtain ⟨ys, hys⟩ := List.head?_eq_some_iff.mp hfrn
      rw [hys]
      exact List.mem_cons_self _ _
    obtain ⟨q, hqrn, hq1⟩ := List.mem_map.mp hfrnmem
    have hlt : p.1 < frn := by
      rw [← hq1]
      exact sorted_cross (by rw [← hflat2]; exact hsorted)
        (List.mem_append_right _ hp) (List.mem_flatten_of_mem hrn hqrn)
    rw [show (runAssign oracle rn).1 = ((runLabels rn).head?).getD 0
      from rfl, hfrn]
    simp only [decide_eq_true_iff, Option.getD_some, not_and]
    intro h1
    omega
  unfold applyAssigns
  rw [List.map_append, List.map_cons, List.filter_append, List.filter_cons]
  rw [hbefore, hafter, if_pos hown]
  rfl

/-- Every annotated row's p-value is the one attached to the (unique) run
carrying its main-TAD key. -/
lemma annotate_pvalueFor (oracle : PvalueOracle) :
    ∀ (runs : List (List (ℕ × IntersectRow))),
      (∀ run ∈ runs, ∀ p ∈ run, rowMain p.2 = runKeyD run) →
      (runs.map runKeyD).Pairwise (fun k1 k2 => k1 ≠ k2) →
      ∀ x ∈ (runs.map (annotateRun oracle)).flatten,
        x.2.2 = pvalueFor oracle runs (rowMain x.2.1)
  | [], _, _, x, hx => by simp at hx
  | run :: rest, hconst, hkeys, x, hx => by
    rw [List.map_cons] at hkeys
    rw [List.map_cons, List.flatten_cons] at hx
    rcases List.mem_append.mp hx with hx1 | hx2
    · obtain ⟨p, hp, rfl⟩ := List.mem_map.mp hx1
      have hkey : rowMain p.2 = runKeyD run :=
        hconst run (List.mem_cons_self _ _) p hp
      show some (oracle (runKeyD run) (runSmalls run)) =
        pvalueFor oracle (run :: rest) (rowMain p.2)
      rw [hkey]
      unfold pvalueFor
      rw [List.find?_cons_of_pos _ (by simp)]
      rfl
    · have ih := annotate_pvalueFor oracle rest
        (fun r hr => hconst r (List.mem_cons_of_mem _ hr))
        (List.pairwise_cons.mp hkeys).2 x hx2
      rw [ih]
      obtain ⟨r', hr', hxr'⟩ : ∃ r' ∈ rest, x ∈ annotateRun oracle r' := by
        obtain ⟨l, hl, hxl⟩ := List.mem_flatten.mp hx2
        obtain ⟨r', hr', rfl⟩ := List.mem_map.mp hl
        exact ⟨r', hr', hxl⟩
      obtain ⟨p, hp, rfl⟩ := List.mem_map.mp hxr'
      have hkey : rowMain p.2 = runKeyD r' :=
        hconst r' (List.mem_cons_of_mem _ hr') p hp
      have hne' : runKeyD run ≠ rowMain (p.1, p.2,
          some (oracle (runKeyD r') (runSmalls r'))).2.1 := by
        show runKeyD run ≠ rowMain p.2
        rw [hkey]
        exact (List.pairwise_cons.mp hkeys).1 (runKeyD r')
          (List.mem_map_of_mem _ hr')
      unfold pvalueFor
      rw [List.find?_cons_of_neg _ (by simpa using hne')]

/-- C4: on a candidate table decomposed into non-empty contiguous runs with
constant `(chrom, start_tad1, end_tad1)` key, strictly increasing labels
starting at `0`, and pairwise-distinct run keys (as produced by the main
pipeline), `choose_region` succeeds; each run's p-value is computed once
(one oracle call per run) and broadcast onto exactly that run's rows, so
every row belongs to one group and rows with the same key carry an
identical p-value. -/
theorem C4_choose_region_pvalue_broadcast (oracle : PvalueOracle)
    (runs : List (List (ℕ × IntersectRow)))
    (hne : ∀ run ∈ runs, run ≠ [])
    (hconst : ∀ run ∈ runs, ∀ p ∈ run, rowMain p.2 = runKeyD run)
    (hsorted : (runs.flatten.map Prod.fst).Pairwise (· < ·))
    (hfirst : (runs.flatten.map Prod.fst).headD 0 = 0)
    (hkeys : (runs.map runKeyD).Pairwise (fun k1 k2 => k1 ≠ k2)) :
    choose_region runs.flatten oracle =
      .ok ((runs.map (annotateRun oracle)).flatten) ∧
    (∀ x ∈ (runs.map (annotateRun oracle)).flatten,
      ∀ y ∈ (runs.map (annotateRun oracle)).flatten,
      rowMain x.2.1 = rowMain y.2.1 → x.2.2 = y.2.2) := by
  constructor
  · cases hflt : runs.flatten with
    | nil =>
      have hrnil : runs = [] := by
        cases runs with
        | nil => rfl
        | cons r rr =>
          exfalso
          rw [List.flatten_cons] at hflt
          exact hne r (List.mem_cons_self _ _) (List.append_eq_nil.mp hflt).1
      subst hrnil
      simp [choose_region]
    | cons q0 qrest =>
      have hflne : runs.flatten ≠ [] := by rw [hflt]; exact List.cons_ne_nil _ _
      have hruns_ne : runs ≠ [] := by
        intro h
        rw [h] at hflt
        simp at hflt
      obtain ⟨-, lastPair, -, hlp⟩ :=
        ne_nil_head_getLast runs.flatten hflne
      have hq0 : q0.1 = 0 := by
        rw [hflt] at hfirst
        simpa using hfirst
      have hfirst' : (runs.flatten.map Prod.fst).head? = some 0 := by
        rw [hflt]
        simp [hq0]
      have hchain : List.Chain' (fun r1 r2 => runKeyD r1 ≠ runKeyD r2) runs :=
        (List.pairwise_map.mp hkeys).chain'
      have h0tail : ∀ p ∈ runs.flatten.tail, p.1 ≠ 0 := by
        intro p hp
        rw [hflt] at hsorted hp
        rw [List.map_cons] at hsorted
        have := (List.pairwise_cons.mp hsorted).1 p.1
          (List.mem_map_of_mem _ hp)
        omega
      have hlastl : (runs.flatten.map Prod.fst).getLast? = some lastPair.1 := by
        rw [List.getLast?_map, hlp]
        rfl
      have hMne : runs.flatten.map Prod.fst ≠ [] := by
        rw [hflt]
        simp
      have hbody : ∀ p ∈ runs.flatten.dropLast, p.1 ≠ lastPair.1 := by
        intro p hp
        have h1 := List.dropLast_concat_getLast hMne
        have h2 : (runs.flatten.map Prod.fst).getLast hMne = lastPair.1 := by
          have h3 := List.getLast?_eq_getLast (runs.flatten.map Prod.fst) hMne
          rw [h3] at hlastl
          exact Option.some.inj hlastl
      -- the sorted list splits as dropLast ++ [last]; cross ordering applies
        have hs2 : ((runs.flatten.map Prod.fst).dropLast ++
            [lastPair.1]).Pairwise (· < ·) := by
          rw [h2] at h1
          rw [h1]
          exact hsorted
        have hpmem : p.1 ∈ (runs.flatten.map Prod.fst).dropLast := by
          rw [← List.map_dropLast]
          exact List.mem_map_of_mem _ hp
        have := (List.pairwise_append.mp hs2).2.2 p.1 hpmem lastPair.1
          (List.mem_singleton.mpr rfl)
        omega
      have hmapmap : runs.flatten.map
          (fun p => (p.1, p.2,
            applyAssigns (runs.map (runAssign oracle)) p.1)) =
          (runs.map (annotateRun oracle)).flatten := by
        rw [List.map_flatten]
        congr 1
        refine List.map_congr_left ?_
        intro run hrun
        unfold annotateRun
        refine List.map_congr_left ?_
        intro p hp
        obtain ⟨before, after, hdec⟩ := List.append_of_mem hrun
        subst hdec
        rw [applyAssigns_runs oracle before after run p hp hne hsorted]
      unfold choose_region
      rw [← hflt, hlp]
      show (match chooseRegionGo oracle lastPair.1 ⟨none, [], [], []⟩
          runs.flatten with
        | Except.error e => Except.error e
        | Except.ok assigns => Except.ok (runs.flatten.map
            (fun p => (p.1, p.2, applyAssigns assigns p.1)))) =
        Except.ok ((runs.map (annotateRun oracle)).flatten)
      rw [go_all oracle lastPair.1 runs hruns_ne hne hconst hchain hfirst'
        h0tail hlastl hbody]
      show Except.ok (runs.flatten.map
          (fun p => (p.1, p.2,
            applyAssigns (runs.map (runAssign oracle)) p.1))) =
        Except.ok ((runs.map (annotateRun oracle)).flatten)
      rw [hmapmap]
  · intro x hx y hy hxy
    rw [annotate_pvalueFor oracle runs hconst hkeys x hx,
      annotate_pvalueFor oracle runs hconst hkeys y hy, hxy]


theorem C4_choose_region_pvalue_broadcast_witness :
    choose_region exRuns.flatten exOracle =
      .ok ((exRuns.map (annotateRun exOracle)).flatten) ∧
    (∀ x ∈ (exRuns.map (annotateRun exOracle)).flatten,
      ∀ y ∈ (exRuns.map (annotateRun exOracle)).flatten,
      rowMain x.2.1 = rowMain y.2.1 → x.2.2 = y.2.2) :=
  C4_choose_region_pvalue_broadcast exOracle exRuns (by decide) (by decide)
    (by decide) (by decide) (by decide)
